import Mathlib

/-!
Verification of the CI/CD pipeline orchestrator (Go backend).

This file gives a shallow embedding, in Lean, of the pieces of the backend
that the examined properties speak about:

* the job/stage execution state machine of executePipeline
  (internal/api/runner.go),
* the surrounding orchestration of runPipelineLogic (clone, parse,
  deploy, rollback, status finalization),
* the deployment flow selection of deployToEnv,
* the default-filename resolution of runPipelineFromWebhook and
  runPipelineFromManualTrigger,
* the compose override generator and service parser
  (internal/parser/compose/parser.go),
* the log collection loop collectLogs (sanitization and batching),
* the local compose deployment DeployCompose of the executor package
  (snapshot, pull, up with container-name-conflict retry, health check,
  rollback).

External effects (the docker engine, the git clone, the database, the
remote shell) are modelled by oracles recording the outcome of each call
the code makes; the embedded functions reproduce the control flow of the
Go source over those outcomes.  Machine integers do not overflow in any
of the embedded fragments (IDs and exit codes are plain ints), so Int is
used directly.  Go strings are modelled by String, except log lines,
which are modelled as lists of characters so that byte-level
sanitization is transparent.
-/

namespace CICD

/-- A job entry of the parsed pipeline document
(JobConfig in internal/parser/pipeline/parser.go). -/
structure JobConfig where
  stage : String
  image : String
  script : List String
deriving DecidableEq

/-- The parsed pipeline document (PipelineConfig in
internal/parser/pipeline/parser.go).  The Go Jobs field is a map from
job name to JobConfig; it is modelled as an association list whose order
is the iteration order of the run, and whose keys are distinct (YAML
mapping keys are unique). -/
structure PipelineConfig where
  stages : List String
  jobs : List (String × JobConfig)
deriving DecidableEq

/-- Outcomes of the container-engine calls made on behalf of one job.
Each job performs at most one PullImage, one RunJobWithVolume and one
WaitForContainer call, so the oracle is indexed by the job name. -/
structure DockerOracle where
  pullOk : String → Bool
  startOk : String → Bool
  exitCode : String → Int

/-- A job row as the store sees it: the status string written by
UpdateJobStatus and the recorded exit code. -/
structure JobRecord where
  status : String
  exitCode : Option Int
deriving DecidableEq

/-- The row created for a job before execution starts. -/
def pendingRecord : JobRecord := ⟨"pending", none⟩

/-- State threaded through the embedded executePipeline: the job rows,
the names of jobs for which a container creation was attempted
(RunJobWithVolume invoked), the early-return flag corresponding to the
return false statement, and the pipelineSuccess variable. -/
structure RunState where
  jobs : String → Option JobRecord
  created : List String
  halted : Bool
  successFlag : Bool

/-- First binding of a job name in the jobs association list, as the Go
map lookup would return it. -/
def lookupJob : List (String × JobConfig) → String → Option JobConfig
  | [], _ => none
  | (m, cfg) :: rest, n => if m = n then some cfg else lookupJob rest n

/-- The rows pre-created by runPipelineLogic before execution: the
pre-create loop iterates the declared stages and creates a pending row
for every job whose stage matches one of them (runner.go lines
120-135).  A job whose stage is not declared is never created. -/
def precreatedJobs (config : PipelineConfig) : String → Option JobRecord :=
  fun n =>
    match lookupJob config.jobs n with
    | some cfg => if config.stages.contains cfg.stage then some pendingRecord else none
    | none => none

/-- Initial state of executePipeline. -/
def initState (config : PipelineConfig) : RunState :=
  ⟨precreatedJobs config, [], false, true⟩

/-- UpdateJobStatus on the row of one job. -/
def setJob (st : RunState) (n : String) (r : JobRecord) : RunState :=
  { st with jobs := fun m => if m = n then some r else st.jobs m }

/-- One iteration of the job loop of executePipeline (runner.go lines
266-335), for a job already known to belong to the current stage:
mark running; pull the image (failure: job failed with exit code 1,
continue); create and start the container (failure: job failed with
exit code 1, continue); wait for the exit code; record success or
failure; on a non-zero exit code return from the whole function
(halted flag). -/
def execJob (d : DockerOracle) (n : String) (st : RunState) : RunState :=
  let st1 := setJob st n ⟨"running", none⟩
  if d.pullOk n = false then
    { setJob st1 n ⟨"failed", some 1⟩ with successFlag := false }
  else
    let st2 := { st1 with created := st1.created ++ [n] }
    if d.startOk n = false then
      { setJob st2 n ⟨"failed", some 1⟩ with successFlag := false }
    else
      if d.exitCode n = 0 then
        setJob st2 n ⟨"success", some (d.exitCode n)⟩
      else
        { setJob st2 n ⟨"failed", some (d.exitCode n)⟩ with
            successFlag := false, halted := true }

/-- The inner loop of executePipeline over the jobs map, keeping only
jobs of the current stage; the halted flag models the early return
aborting both loops. -/
def execJobsInStage (d : DockerOracle) (stg : String) :
    List (String × JobConfig) → RunState → RunState
  | [], st => st
  | (n, cfg) :: rest, st =>
    if st.halted then st
    else if cfg.stage = stg then execJobsInStage d stg rest (execJob d n st)
    else execJobsInStage d stg rest st

/-- The outer loop of executePipeline over the declared stages. -/
def execStages (d : DockerOracle) (jobs : List (String × JobConfig)) :
    List String → RunState → RunState
  | [], st => st
  | stg :: rest, st =>
    if st.halted then st
    else execStages d jobs rest (execJobsInStage d stg jobs st)

/-- executePipeline (runner.go lines 239-340): runs every stage in
declared order, and returns the pipelineSuccess flag together with the
final state. -/
def executePipeline (d : DockerOracle) (config : PipelineConfig) : Bool × RunState :=
  let final := execStages d config.jobs config.stages (initState config)
  (final.successFlag, final)

/-- The job names of one stage, in jobs-map iteration order. -/
def stageJobNames (jobs : List (String × JobConfig)) (stg : String) : List String :=
  (jobs.filter (fun pr => pr.2.stage = stg)).map Prod.fst

/-- The linear order in which executePipeline visits jobs: stages in
declared order, and within a stage the jobs mapped to it. -/
def execOrder (config : PipelineConfig) : List String :=
  (config.stages.map (stageJobNames config.jobs)).flatten

/-- A job whose container was started and exited non-zero: the only
situation in which executePipeline returns early. -/
def hardFail (d : DockerOracle) (n : String) : Bool :=
  d.pullOk n && d.startOk n && decide (d.exitCode n ≠ 0)

/-- A job whose three engine calls all succeeded with exit code zero. -/
def jobOk (d : DockerOracle) (n : String) : Bool :=
  d.pullOk n && d.startOk n && decide (d.exitCode n = 0)

/-- The terminal row an attempted job ends with, as a function of the
engine outcomes. -/
def recordOf (d : DockerOracle) (n : String) : JobRecord :=
  if d.pullOk n = false then ⟨"failed", some 1⟩
  else if d.startOk n = false then ⟨"failed", some 1⟩
  else if d.exitCode n = 0 then ⟨"success", some (d.exitCode n)⟩
  else ⟨"failed", some (d.exitCode n)⟩

/-- The prefix of a list up to and including the first element
satisfying p. -/
def takeThrough {α : Type} (p : α → Bool) : List α → List α
  | [] => []
  | x :: xs => x :: (if p x then [] else takeThrough p xs)

/-- The jobs executePipeline actually attempts: the visit order up to
and including the first job whose container exits non-zero. -/
def processedJobs (d : DockerOracle) (config : PipelineConfig) : List String :=
  takeThrough (hardFail d) (execOrder config)

/-- Flat form of the two nested loops: visit the given job names in
order, stopping as soon as the halted flag is set. -/
def runSeq (d : DockerOracle) : List String → RunState → RunState
  | [], st => st
  | n :: ns, st => if st.halted then st else runSeq d ns (execJob d n st)

/-- The project fields read by the embedded fragments of the runner
(models.Project carries many more; only RegistryUser and SSHHost drive
control flow here). -/
structure Project where
  registryUser : String
  sshHost : String
deriving DecidableEq

/-- The fields of models.PipelineRunParams read by the embedded
fragments. -/
structure RunParams where
  repoName : String
  commitHash : String
  pipelineID : Int
deriving DecidableEq

/-- deployToEnv chooses between the registry-and-SSH flow and the local
compose flow (runner.go lines 489-501). -/
inductive DeployFlow
  | remote
  | local
deriving DecidableEq

/-- The flow test of deployToEnv: project non-nil, RegistryUser non-empty
and SSHHost non-empty select the remote flow; anything else the local
flow. -/
def selectFlow (project : Option Project) : DeployFlow :=
  match project with
  | some p => if p.registryUser ≠ "" ∧ p.sshHost ≠ "" then DeployFlow.remote else DeployFlow.local
  | none => DeployFlow.local

/-- Default applied to an unset pipeline filename in
runPipelineFromWebhook (runner.go lines 422-424) and
runPipelineFromManualTrigger (lines 464-467). -/
def effectivePipelineFilename (pf : String) : String :=
  if pf = "" then ".gitlab-ci.yml" else pf

/-- Default applied to an unset deployment filename in
runPipelineFromWebhook (runner.go lines 425-427) and
runPipelineFromManualTrigger (lines 468-471). -/
def effectiveDeploymentFilename (df : String) : String :=
  if df = "" then "docker-compose.yml" else df

/-- Outcomes of the external calls made by runPipelineLogic around the
job execution: store lookups, clone, config parse, deployment and
rollback.  The store is modelled as reliable (writes succeed, the
deployment row pre-created for the pipeline is found again when
deployFound is true). -/
structure RunnerOracle where
  hasDB : Bool
  project : Option Project
  cloneOk : Bool
  configFileFound : Bool
  parseResult : Option PipelineConfig
  docker : DockerOracle
  deployFound : Bool
  deployOk : Bool
  lastSuccessfulCommit : Option String
  rollbackCloneOk : Bool
  rollbackDeployOk : Bool

/-- Observable outcome of one runPipelineLogic run: the pipeline status
values written by UpdatePipelineStatus in order, the deployment status
values written by UpdateDeploymentStatus in order, and the final job
rows and container creations. -/
structure RunnerResult where
  pipelineWrites : List String
  deployWrites : List String
  jobs : String → Option JobRecord
  created : List String

/-- A single conditional status write. -/
def writeIf (b : Bool) (s : String) : List String :=
  if b then [s] else []

/-- The rollback attempt of runPipelineLogic (runner.go lines 168-203):
with a store and a known project, look up the last successful pipeline;
if it exists with a non-empty commit hash, slice its first 8 characters
for the rollback workspace name (line 181; none models the panic when
the hash is shorter), clone it and re-deploy.  Returns whether
rollbackSuccess ended true. -/
def rollbackAttempt (o : RunnerOracle) : Option Bool :=
  if o.hasDB ∧ o.project.isSome then
    match o.lastSuccessfulCommit with
    | some c =>
      if c ≠ "" then
        if c.length < 8 then none
        else some (o.rollbackCloneOk && o.rollbackDeployOk)
      else some false
    | none => some false
  else some false

/-- runPipelineLogic (runner.go lines 67-236), from the workspace-path
construction to the final status writes.  The first step slices the
first 8 characters of the commit hash for the workspace name (line 75);
a hash shorter than 8 characters makes the Go slice expression panic,
modelled as none.  Afterwards: clone (failure writes failed), config
file lookup and parse (failure writes failed), job pre-creation,
executePipeline, then on success the deployment with rollback on error,
and the final status block (lines 221-235) which, when the pipeline did
not succeed, marks the pipeline failed and additionally writes failed
on the deployment row it finds. -/
def runPipelineLogic (o : RunnerOracle) (params : RunParams) : Option RunnerResult :=
  let dbOn := o.hasDB && decide (params.pipelineID > 0)
  if params.commitHash.length < 8 then none
  else if o.cloneOk = false then
    some ⟨writeIf dbOn "failed", [], fun _ => none, []⟩
  else if o.configFileFound = false then
    some ⟨writeIf dbOn "failed", [], fun _ => none, []⟩
  else
    match o.parseResult with
    | none => some ⟨writeIf dbOn "failed", [], fun _ => none, []⟩
    | some config =>
      let run := executePipeline o.docker config
      let st := run.2
      if run.1 then
        let deploymentIDSet := dbOn && o.deployFound
        let preWrites := writeIf deploymentIDSet "deploying"
        if o.deployOk then
          some ⟨writeIf dbOn "success",
                preWrites ++ writeIf deploymentIDSet "success",
                st.jobs, st.created⟩
        else
          match rollbackAttempt o with
          | none => none
          | some rb =>
            some ⟨writeIf dbOn "failed",
                  preWrites
                    ++ writeIf deploymentIDSet (if rb then "rolled_back" else "failed")
                    ++ writeIf (dbOn && o.deployFound) "failed",
                  st.jobs, st.created⟩
      else
        some ⟨writeIf dbOn "failed",
              writeIf (dbOn && o.deployFound) "failed",
              st.jobs, st.created⟩

/-- A service entry of the deployment compose document, as far as the
backend reads it: whether the service declares a build key
(internal/parser/compose/parser.go). -/
structure ComposeService where
  hasBuild : Bool
deriving DecidableEq

/-- The parsed compose document: the services mapping, modelled as an
association list in map iteration order. -/
structure ComposeDoc where
  services : List (String × ComposeService)
deriving DecidableEq

/-- ParseServices (compose/parser.go lines 19-41): the names of the
services declaring a build key. -/
def ParseServices (doc : ComposeDoc) : List String :=
  (doc.services.filter (fun pr => pr.2.hasBuild)).map Prod.fst

/-- strings.ReplaceAll with the single-character pattern a space and
replacement a dash: every space of the string becomes a dash. -/
def replaceSpaceDash (s : String) : String :=
  ⟨s.data.map (fun c => if c = ' ' then '-' else c)⟩

/-- strings.ToLower restricted to its simple character mapping: each
character lower-cased in place. -/
def goToLower (s : String) : String :=
  ⟨s.data.map Char.toLower⟩

/-- The name cleaning of GenerateOverride (compose/parser.go lines
49-52): spaces replaced by dashes, then lower-cased. -/
def cleanName (s : String) : String :=
  goToLower (replaceSpaceDash s)

/-- GenerateOverride (compose/parser.go lines 46-69): for every given
service, one override entry pinning its image to
registryUser/cleanProject-cleanService:tag.  The Go code builds a map
keyed by service name and marshals it; the override is modelled as the
association list of its entries (the callers pass the distinct keys of
the services map, so no key collapsing occurs). -/
def GenerateOverride (services : List String) (registryUser projectName tag : String) :
    List (String × String) :=
  let cleanProject := cleanName projectName
  services.map (fun service =>
    (service, registryUser ++ "/" ++ cleanProject ++ "-" ++ cleanName service ++ ":" ++ tag))

/-- The NUL character stripped from log lines. -/
def nulChar : Char := Char.ofNat 0

/-- The sanitization of collectLogs (runner.go line 370):
strings.ReplaceAll(line, nul, empty) deletes every NUL byte of the
line; on a character list that is a filter. -/
def sanitizeLine (line : List Char) : List Char :=
  line.filter (fun c => c ≠ nulChar)

/-- The scanner loop of collectLogs (runner.go lines 366-396) over the
already demultiplexed lines: sanitize, skip lines that became empty,
append to the batch, flush to the store when the batch reaches 10 lines
(given a store and a job row), and flush the remainder when the stream
closes.  Returns the flushed batches in order. -/
def collectLoop (hasDB : Bool) (jobID : Int) :
    List (List Char) → List (List Char) → List (List (List Char))
  | [], batch =>
    if batch ≠ [] ∧ hasDB ∧ jobID > 0 then [batch] else []
  | line :: rest, batch =>
    let cleanLine := sanitizeLine line
    if cleanLine = [] then collectLoop hasDB jobID rest batch
    else
      let batch1 := batch ++ [cleanLine]
      if batch1.length ≥ 10 ∧ hasDB ∧ jobID > 0 then
        batch1 :: collectLoop hasDB jobID rest []
      else collectLoop hasDB jobID rest batch1

/-- collectLogs, as the list of store batches it appends for a given
stream of demultiplexed lines. -/
def collectLogs (hasDB : Bool) (jobID : Int) (lines : List (List Char)) :
    List (List (List Char)) :=
  collectLoop hasDB jobID lines []

/-- Whether a character list begins with the given pattern. -/
def beginsWith : List Char → List Char → Bool
  | _, [] => true
  | [], _ :: _ => false
  | c :: cs, p :: ps => c = p && beginsWith cs ps

/-- strings.Contains: some position of the string starts the pattern
(the empty pattern is contained everywhere). -/
def hasSubstr (s : List Char) (pat : List Char) : Bool :=
  match s with
  | [] => pat.isEmpty
  | c :: cs => beginsWith (c :: cs) pat || hasSubstr cs pat

/-- strings.Contains on strings. -/
def goContains (s pat : String) : Bool :=
  hasSubstr s.data pat.data

/-- The characters after the first occurrence of the pattern, or none
when the pattern does not occur: the start of the second element of
strings.Split on that pattern. -/
def textAfterFirst (pat : List Char) : List Char → Option (List Char)
  | [] => if pat.isEmpty then some [] else none
  | c :: cs =>
    if beginsWith (c :: cs) pat then some (List.drop pat.length (c :: cs))
    else textAfterFirst pat cs

/-- The characters before the first occurrence of the pattern (the
whole list when the pattern does not occur): the end of a
strings.Split segment. -/
def textBeforeFirst (pat : List Char) : List Char → List Char
  | [] => []
  | c :: cs =>
    if beginsWith (c :: cs) pat then [] else c :: textBeforeFirst pat cs

/-- The conflict-container extraction of the DeployCompose up-failure
branch: parts is strings.Split of the output on the phrase up to and
including the opening quote; when there is more than one part, the id
is the text of parts at index one before the closing quote (the first
element of a further split on the quote character). -/
def extractConflictID (outStr : String) : Option String :=
  match textAfterFirst "already in use by container \"".data outStr.data with
  | some rest =>
    let part1 := textBeforeFirst "already in use by container \"".data rest
    some ⟨textBeforeFirst "\"".data part1⟩
  | none => none

/-- Outcomes of the compose subprocesses invoked by DeployCompose.
The health poll loop (ten-second ticker, two-minute deadline) is
abstracted to its eventual outcome healthOk. -/
structure ComposeOracle where
  pullOk : Bool
  upOk : Bool
  upOutput : String
  retryOk : Bool
  servicesCmdOk : Bool
  expectedServicesEmpty : Bool
  healthOk : Bool
deriving DecidableEq

/-- Observable outcome of one DeployCompose run: whether it returned an
error, whether performRollback was invoked, which conflicting container
was force-removed, and whether compose up was retried. -/
structure DeployOutcome where
  err : Bool
  rolledBack : Bool
  removedConflict : Option String
  retried : Bool
deriving DecidableEq

/-- The part of DeployCompose after compose up has succeeded (possibly
on retry): determine the expected services (command failure rolls back
and errors), succeed immediately when the compose file declares no
services, otherwise succeed or roll back according to the health poll
outcome. -/
def afterUpSuccess (o : ComposeOracle) (removed : Option String) (retried : Bool) :
    DeployOutcome :=
  if o.servicesCmdOk = false then ⟨true, true, removed, retried⟩
  else if o.expectedServicesEmpty then ⟨false, false, removed, retried⟩
  else if o.healthOk then ⟨false, false, removed, retried⟩
  else ⟨true, true, removed, retried⟩

/-- DeployCompose of the executor docker client: snapshot (not
observed here), compose pull (failure returns the error without
rollback), compose up -d --build with the container-name-conflict
resolution (when the combined output contains both the word Conflict
and the phrase already in use by container, the quoted container id is
force-removed and the up command retried exactly once; a failure that
does not match, or whose retry fails again, triggers performRollback
and an error), then the service listing and the health poll. -/
def deployCompose (o : ComposeOracle) : DeployOutcome :=
  if o.pullOk = false then ⟨true, false, none, false⟩
  else if o.upOk = false then
    if goContains o.upOutput "Conflict" && goContains o.upOutput "already in use by container" then
      match extractConflictID o.upOutput with
      | some cid =>
        if o.retryOk then afterUpSuccess o (some cid) true
        else ⟨true, true, some cid, true⟩
      | none => ⟨true, true, none, false⟩
    else ⟨true, true, none, false⟩
  else afterUpSuccess o none false

/-! Concrete inputs used to exhibit counterexamples and to instantiate
the hypothesis-bearing theorems. -/

/-- An engine for which every pull, start and wait succeeds with exit
code zero. -/
def dockerAllOk : DockerOracle :=
  ⟨fun _ => true, fun _ => true, fun _ => 0⟩

/-- An engine for which the image pull of job a fails and everything
else succeeds. -/
def dockerPullFailA : DockerOracle :=
  ⟨fun n => !(n = "a" : Bool), fun _ => true, fun _ => 0⟩

/-- An engine for which job a runs and exits with code 3 and everything
else succeeds. -/
def dockerExitThreeA : DockerOracle :=
  ⟨fun _ => true, fun _ => true, fun n => if n = "a" then 3 else 0⟩

/-- A two-job single-stage pipeline: jobs a and b in stage build. -/
def cfgTwoJobs : PipelineConfig :=
  ⟨["build"], [("a", ⟨"build", "alpine", ["echo hi"]⟩), ("b", ⟨"build", "alpine", ["true"]⟩)]⟩

/-- A two-stage pipeline: job a in stage build, job t in stage test. -/
def cfgTwoStages : PipelineConfig :=
  ⟨["build", "test"], [("a", ⟨"build", "alpine", ["exit 3"]⟩), ("t", ⟨"test", "alpine", ["true"]⟩)]⟩

/-- A pipeline declaring only stage build, with one job in it and one
job ghost referring to the undeclared stage deploy. -/
def cfgGhost : PipelineConfig :=
  ⟨["build"], [("good", ⟨"build", "alpine", ["true"]⟩), ("ghost", ⟨"deploy", "alpine", ["true"]⟩)]⟩

/-- The empty pipeline: no stages, no jobs. -/
def cfgEmpty : PipelineConfig := ⟨[], []⟩

/-- Runner oracle for the rollback scenario of the deployment status
claim: everything up to the deployment succeeds, the deployment fails,
a last successful pipeline exists, and the rollback clone and rollback
deployment both succeed. -/
def oracleRollbackOk : RunnerOracle where
  hasDB := true
  project := some ⟨"", ""⟩
  cloneOk := true
  configFileFound := true
  parseResult := some cfgEmpty
  docker := dockerAllOk
  deployFound := true
  deployOk := false
  lastSuccessfulCommit := some "old00001"
  rollbackCloneOk := true
  rollbackDeployOk := true

/-- Runner oracle for the unknown-stage scenario: the parsed config is
cfgGhost, every engine call and the deployment succeed. -/
def oracleGhost : RunnerOracle where
  hasDB := true
  project := some ⟨"", ""⟩
  cloneOk := true
  configFileFound := true
  parseResult := some cfgGhost
  docker := dockerAllOk
  deployFound := true
  deployOk := true
  lastSuccessfulCommit := none
  rollbackCloneOk := false
  rollbackDeployOk := false

/-- Run parameters with an 8-character commit hash. -/
def paramsMain : RunParams := ⟨"app", "abc12345", 1⟩

/-- Run parameters with a 3-character, non-empty commit hash. -/
def paramsShort : RunParams := ⟨"app", "abc", 1⟩

/-- A compose up failure output that contains the conflict phrase with
a quoted container id but not the word Conflict. -/
def upOutputNoMarker : String :=
  "docker: the name is already in use by container \"deadbeef\". Remove it first."

/-- A compose up failure output as the docker daemon emits it: it
contains both the word Conflict and the quoted container id. -/
def upOutputDaemon : String :=
  "Error response from daemon: Conflict. The container name is already in use by container \"deadbeef\". You have to remove it."

/-- Compose oracle for the conflict-substring counterexample: pull
succeeds, up fails with upOutputNoMarker, a retry would succeed. -/
def composeOracleNoMarker : ComposeOracle :=
  ⟨true, false, upOutputNoMarker, true, true, false, true⟩

/-- Compose oracle with the full daemon message and a successful
retry. -/
def composeOracleDaemon : ComposeOracle :=
  ⟨true, false, upOutputDaemon, true, true, false, true⟩

/-! General lemmas about the embedded executor. -/

theorem runSeq_halted_stop (d : DockerOracle) (l : List String) (st : RunState)
    (h : st.halted = true) : runSeq d l st = st := by
  cases l with
  | nil => rfl
  | cons n ns => simp [runSeq, h]

theorem runSeq_append (d : DockerOracle) (a b : List String) (st : RunState) :
    runSeq d (a ++ b) st = runSeq d b (runSeq d a st) := by
  induction a generalizing st with
  | nil => rfl
  | cons n ns ih =>
    by_cases h : st.halted = true
    · simp [runSeq, h, runSeq_halted_stop d b st h]
    · simp only [Bool.not_eq_true] at h
      simp [runSeq, h, ih]

theorem execJobsInStage_eq_runSeq (d : DockerOracle) (stg : String)
    (jobs : List (String × JobConfig)) (st : RunState) :
    execJobsInStage d stg jobs st = runSeq d (stageJobNames jobs stg) st := by
  induction jobs generalizing st with
  | nil => rfl
  | cons pr rest ih =>
    obtain ⟨n, cfg⟩ := pr
    by_cases h : st.halted = true
    · rw [runSeq_halted_stop d _ st h]
      simp [execJobsInStage, h]
    · simp only [Bool.not_eq_true] at h
      by_cases hstg : cfg.stage = stg
      · simp [execJobsInStage, h, hstg, stageJobNames, runSeq, ih]
      · simp [execJobsInStage, h, hstg, stageJobNames, ih]

theorem execStages_eq_runSeq (d : DockerOracle) (jobs : List (String × JobConfig))
    (stages : List String) (st : RunState) :
    execStages d jobs stages st = runSeq d ((stages.map (stageJobNames jobs)).flatten) st := by
  induction stages generalizing st with
  | nil => rfl
  | cons stg rest ih =>
    by_cases h : st.halted = true
    · rw [runSeq_halted_stop d _ st h]
      simp [execStages, h]
    · simp only [Bool.not_eq_true] at h
      simp [execStages, h, List.map_cons, List.flatten_cons, runSeq_append,
        execJobsInStage_eq_runSeq, ih]

theorem executePipeline_eq_runSeq (d : DockerOracle) (config : PipelineConfig) :
    executePipeline d config
      = ((runSeq d (execOrder config) (initState config)).successFlag,
         runSeq d (execOrder config) (initState config)) := by
  simp [executePipeline, execStages_eq_runSeq, execOrder]

theorem execJob_jobs (d : DockerOracle) (n : String) (st : RunState) (m : String) :
    (execJob d n st).jobs m = if m = n then some (recordOf d n) else st.jobs m := by
  simp only [execJob, setJob, recordOf]
  by_cases h1 : d.pullOk n = false <;>
    by_cases h2 : d.startOk n = false <;>
      by_cases h3 : d.exitCode n = 0 <;>
        by_cases hmn : m = n <;>
          simp [h1, h2, h3, hmn]

theorem execJob_halted (d : DockerOracle) (n : String) (st : RunState)
    (h : st.halted = false) : (execJob d n st).halted = hardFail d n := by
  simp only [execJob, setJob, hardFail]
  by_cases h1 : d.pullOk n = false <;>
    by_cases h2 : d.startOk n = false <;>
      by_cases h3 : d.exitCode n = 0 <;>
        simp_all

theorem execJob_success (d : DockerOracle) (n : String) (st : RunState) :
    (execJob d n st).successFlag = (st.successFlag && jobOk d n) := by
  simp only [execJob, setJob, jobOk]
  by_cases h1 : d.pullOk n = false <;>
    by_cases h2 : d.startOk n = false <;>
      by_cases h3 : d.exitCode n = 0 <;>
        simp_all

theorem execJob_created_mem (d : DockerOracle) (n : String) (st : RunState) (m : String)
    (h : m ∈ (execJob d n st).created) : m ∈ st.created ∨ m = n := by
  simp only [execJob, setJob] at h
  by_cases h1 : d.pullOk n = false <;>
    by_cases h2 : d.startOk n = false <;>
      by_cases h3 : d.exitCode n = 0 <;>
        simp_all

theorem takeThrough_sublist {α : Type} (p : α → Bool) (l : List α) (a : α)
    (h : a ∈ takeThrough p l) : a ∈ l := by
  induction l with
  | nil => simp [takeThrough] at h
  | cons x xs ih =>
    simp only [takeThrough] at h
    rcases List.mem_cons.mp h with h1 | h1
    · simp [h1]
    · by_cases hp : p x = true
      · simp [hp] at h1
      · simp only [Bool.not_eq_true] at hp
        simp only [hp] at h1
        simp only [Bool.false_eq_true, if_false] at h1
        exact List.mem_cons_of_mem x (ih h1)

theorem runSeq_cons_step (d : DockerOracle) (x : String) (xs : List String) (st : RunState)
    (hst : st.halted = false) :
    runSeq d (x :: xs) st = runSeq d xs (execJob d x st) := by
  simp [runSeq, hst]

theorem runSeq_jobs (d : DockerOracle) (l : List String) (st : RunState)
    (hl : l.Nodup) (hst : st.halted = false) (n : String) :
    (runSeq d l st).jobs n
      = if n ∈ takeThrough (hardFail d) l then some (recordOf d n) else st.jobs n := by
  induction l generalizing st with
  | nil => simp [runSeq, takeThrough]
  | cons x xs ih =>
    rw [runSeq_cons_step d x xs st hst]
    by_cases hhard : hardFail d x = true
    · have hh : (execJob d x st).halted = true := by rw [execJob_halted d x st hst, hhard]
      rw [runSeq_halted_stop d xs _ hh]
      rw [execJob_jobs]
      by_cases hxn : n = x
      · simp [takeThrough, hxn, hhard]
      · simp [takeThrough, hhard, hxn, Ne.symm hxn]
    · simp only [Bool.not_eq_true] at hhard
      have hh : (execJob d x st).halted = false := by rw [execJob_halted d x st hst, hhard]
      rw [ih (execJob d x st) (List.Nodup.of_cons hl) hh]
      rw [execJob_jobs]
      by_cases hxn : n = x
      · have hnx : n ∉ takeThrough (hardFail d) xs := by
          intro hmem
          have hmem2 := takeThrough_sublist _ _ _ hmem
          rw [hxn] at hmem2
          exact (List.nodup_cons.mp hl).1 hmem2
        simp [takeThrough, hhard, hxn, hnx]
      · simp [takeThrough, hhard, hxn, Ne.symm hxn]

theorem runSeq_success (d : DockerOracle) (l : List String) (st : RunState)
    (hst : st.halted = false) :
    (runSeq d l st).successFlag
      = (st.successFlag && (takeThrough (hardFail d) l).all (jobOk d)) := by
  induction l generalizing st with
  | nil => simp [runSeq, takeThrough]
  | cons x xs ih =>
    rw [runSeq_cons_step d x xs st hst]
    by_cases hhard : hardFail d x = true
    · have hh : (execJob d x st).halted = true := by rw [execJob_halted d x st hst, hhard]
      rw [runSeq_halted_stop d xs _ hh, execJob_success]
      have hnotok : jobOk d x = false := by
        simp only [hardFail, Bool.and_eq_true, decide_eq_true_eq] at hhard
        simp [jobOk, hhard.1.1, hhard.1.2, hhard.2]
      simp [takeThrough, hhard, hnotok]
    · simp only [Bool.not_eq_true] at hhard
      have hh : (execJob d x st).halted = false := by rw [execJob_halted d x st hst, hhard]
      rw [ih (execJob d x st) hh, execJob_success]
      simp [takeThrough, hhard, Bool.and_assoc]

theorem runSeq_created_mem (d : DockerOracle) (l : List String) (st : RunState) (m : String)
    (h : m ∈ (runSeq d l st).created) : m ∈ st.created ∨ m ∈ l := by
  induction l generalizing st with
  | nil => exact Or.inl h
  | cons x xs ih =>
    by_cases hh : st.halted = true
    · rw [runSeq_halted_stop d _ st hh] at h
      exact Or.inl h
    · simp only [Bool.not_eq_true] at hh
      rw [runSeq_cons_step d x xs st hh] at h
      rcases ih (execJob d x st) h with h1 | h1
      · rcases execJob_created_mem d x st m h1 with h2 | h2
        · exact Or.inl h2
        · exact Or.inr (by simp [h2])
      · exact Or.inr (List.mem_cons_of_mem x h1)

theorem takeThrough_decomp {α : Type} (p : α → Bool) (l : List α) (a : α)
    (hmem : a ∈ takeThrough p l) (hpa : p a = true) :
    ∃ pre rest, l = pre ++ a :: rest ∧ takeThrough p l = pre ++ [a]
      ∧ ∀ b ∈ pre, p b = false := by
  induction l with
  | nil => simp [takeThrough] at hmem
  | cons x xs ih =>
    by_cases hpx : p x = true
    · have hax : a = x := by
        simp only [takeThrough, hpx, if_pos rfl] at hmem
        simpa using hmem
      refine ⟨[], xs, by simp [hax], ?_, by simp⟩
      simp [takeThrough, hax, hpx]
    · simp only [Bool.not_eq_true] at hpx
      have hax : a ≠ x := fun hax => by rw [hax, hpx] at hpa; exact Bool.false_ne_true hpa
      have hmem2 : a ∈ takeThrough p xs := by
        simp only [takeThrough, hpx, Bool.false_eq_true, if_false] at hmem
        rcases List.mem_cons.mp hmem with h1 | h1
        · exact absurd h1 hax
        · exact h1
      obtain ⟨pre, rest, he, ht, hall⟩ := ih hmem2
      refine ⟨x :: pre, rest, by simp [he], ?_, ?_⟩
      · simp [takeThrough, hpx, ht]
      · intro b hb
        rcases List.mem_cons.mp hb with h1 | h1
        · rw [h1]; exact hpx
        · exact hall b h1

theorem takeThrough_next {α : Type} (p : α → Bool) (l : List α) (a : α)
    (hnd : l.Nodup) (hmem : a ∈ takeThrough p l) (hpa : p a = false) :
    ∀ pre k rest, l = pre ++ a :: k :: rest → k ∈ takeThrough p l := by
  induction l generalizing a with
  | nil => simp [takeThrough] at hmem
  | cons x xs ih =>
    intro pre k rest he
    cases pre with
    | nil =>
      simp only [List.nil_append] at he
      have hax : x = a := (List.cons_eq_cons.mp he).1
      have hxs : xs = k :: rest := (List.cons_eq_cons.mp he).2
      subst hax
      simp [takeThrough, hpa, hxs]
    | cons b pre1 =>
      have he2 : x :: xs = b :: (pre1 ++ a :: k :: rest) := by simpa using he
      have hxb : x = b := (List.cons_eq_cons.mp he2).1
      have hxs : xs = pre1 ++ a :: k :: rest := (List.cons_eq_cons.mp he2).2
      have hax : a ≠ x := by
        intro hax
        have hmemx : a ∈ xs := by rw [hxs]; simp
        rw [hax] at hmemx
        exact (List.nodup_cons.mp hnd).1 hmemx
      by_cases hpx : p x = true
      · exfalso
        simp only [takeThrough, hpx, if_pos rfl] at hmem
        rcases List.mem_cons.mp hmem with h1 | h1
        · exact hax h1
        · simp at h1
      · simp only [Bool.not_eq_true] at hpx
        have hmem2 : a ∈ takeThrough p xs := by
          simp only [takeThrough, hpx, Bool.false_eq_true, if_false] at hmem
          rcases List.mem_cons.mp hmem with h1 | h1
          · exact absurd h1 hax
          · exact h1
        have hk := ih a (List.Nodup.of_cons hnd) hmem2 hpa pre1 k rest hxs
        simp only [takeThrough, hpx, Bool.false_eq_true, if_false]
        exact List.mem_cons_of_mem x hk

theorem nodup_middle_inj {α : Type} (a : α) (p1 m1 p2 m2 : List α)
    (hnd : (p1 ++ a :: m1).Nodup) (he : p1 ++ a :: m1 = p2 ++ a :: m2) :
    p1 = p2 ∧ m1 = m2 := by
  induction p1 generalizing p2 with
  | nil =>
    cases p2 with
    | nil => simpa using he
    | cons b p2t =>
      exfalso
      simp only [List.nil_append, List.cons_append] at he
      have hab : a = b := (List.cons_eq_cons.mp he).1
      have hm : m1 = p2t ++ a :: m2 := (List.cons_eq_cons.mp he).2
      have : a ∈ m1 := by rw [hm]; simp
      simp only [List.nil_append] at hnd
      exact (List.nodup_cons.mp hnd).1 this
  | cons b p1t ih =>
    cases p2 with
    | nil =>
      exfalso
      simp only [List.cons_append, List.nil_append] at he
      have hba : b = a := (List.cons_eq_cons.mp he).1
      have hm : p1t ++ a :: m1 = m2 := (List.cons_eq_cons.mp he).2
      have hmem : a ∈ p1t ++ a :: m1 := by simp
      have hnd2 : (b :: (p1t ++ a :: m1)).Nodup := by simpa using hnd
      rw [hba] at hnd2
      exact (List.nodup_cons.mp hnd2).1 hmem
    | cons c p2t =>
      simp only [List.cons_append] at he
      have hbc : b = c := (List.cons_eq_cons.mp he).1
      have ht : p1t ++ a :: m1 = p2t ++ a :: m2 := (List.cons_eq_cons.mp he).2
      have hnd2 : (p1t ++ a :: m1).Nodup := by
        have : (b :: (p1t ++ a :: m1)).Nodup := by simpa using hnd
        exact List.Nodup.of_cons this
      obtain ⟨hp, hm⟩ := ih p2t hnd2 ht
      exact ⟨by rw [hbc, hp], hm⟩

theorem lookupJob_eq_some (l : List (String × JobConfig)) (n : String) (cfg : JobConfig)
    (hk : (l.map Prod.fst).Nodup) (hm : (n, cfg) ∈ l) :
    lookupJob l n = some cfg := by
  induction l with
  | nil => simp at hm
  | cons pr rest ih =>
    obtain ⟨m, c⟩ := pr
    rcases List.mem_cons.mp hm with h1 | h1
    · have hmn : m = n := (Prod.ext_iff.mp h1).1.symm
      have hc : c = cfg := (Prod.ext_iff.mp h1).2.symm
      simp [lookupJob, hmn, hc]
    · have hmn : m ≠ n := by
        intro hmn
        have hmem : n ∈ rest.map Prod.fst := List.mem_map.mpr ⟨(n, cfg), h1, rfl⟩
        rw [hmn] at hk
        simp only [List.map_cons, List.nodup_cons] at hk
        exact hk.1 hmem
      have hk2 : (rest.map Prod.fst).Nodup := by
        simp only [List.map_cons, List.nodup_cons] at hk
        exact hk.2
      simp [lookupJob, hmn, ih hk2 h1]

theorem mem_stageJobNames (jobs : List (String × JobConfig)) (stg n : String) :
    n ∈ stageJobNames jobs stg ↔ ∃ cfg, (n, cfg) ∈ jobs ∧ cfg.stage = stg := by
  constructor
  · intro h
    simp only [stageJobNames, List.mem_map, List.mem_filter] at h
    obtain ⟨⟨m, cfg⟩, ⟨hmem, hstg⟩, hfst⟩ := h
    simp only at hfst
    subst hfst
    exact ⟨cfg, hmem, by simpa using hstg⟩
  · intro ⟨cfg, hmem, hstg⟩
    simp only [stageJobNames, List.mem_map, List.mem_filter]
    exact ⟨(n, cfg), ⟨hmem, by simpa using hstg⟩, rfl⟩

theorem mem_execOrder (config : PipelineConfig) (n : String) :
    n ∈ execOrder config ↔ ∃ cfg, (n, cfg) ∈ config.jobs ∧ cfg.stage ∈ config.stages := by
  constructor
  · intro h
    simp only [execOrder, List.mem_flatten, List.mem_map] at h
    obtain ⟨l, ⟨stg, hstg, hl⟩, hn⟩ := h
    subst hl
    obtain ⟨cfg, hmem, hcstg⟩ := (mem_stageJobNames _ _ _).mp hn
    exact ⟨cfg, hmem, by rw [hcstg]; exact hstg⟩
  · intro ⟨cfg, hmem, hstg⟩
    simp only [execOrder, List.mem_flatten, List.mem_map]
    exact ⟨stageJobNames config.jobs cfg.stage, ⟨cfg.stage, hstg, rfl⟩,
      (mem_stageJobNames _ _ _).mpr ⟨cfg, hmem, rfl⟩⟩

theorem precreated_of_mem_execOrder (config : PipelineConfig)
    (hk : (config.jobs.map Prod.fst).Nodup) (n : String) (h : n ∈ execOrder config) :
    precreatedJobs config n = some pendingRecord := by
  obtain ⟨cfg, hmem, hstg⟩ := (mem_execOrder config n).mp h
  have hl := lookupJob_eq_some config.jobs n cfg hk hmem
  simp only [precreatedJobs, hl]
  rw [if_pos (List.elem_eq_true_of_mem hstg)]

theorem execOrder_nodup (config : PipelineConfig)
    (hk : (config.jobs.map Prod.fst).Nodup) (hs : config.stages.Nodup) :
    (execOrder config).Nodup := by
  rw [execOrder, List.nodup_flatten]
  constructor
  · intro l hl
    simp only [List.mem_map] at hl
    obtain ⟨stg, _, hstg⟩ := hl
    subst hstg
    have hsub : (stageJobNames config.jobs stg).Sublist (config.jobs.map Prod.fst) :=
      List.Sublist.map Prod.fst (List.filter_sublist config.jobs)
    exact List.Nodup.sublist hsub hk
  · have hne : List.Pairwise (fun a b : String => a ≠ b) config.stages := hs
    refine List.Pairwise.map (stageJobNames config.jobs) ?_ hne
    intro a b hab
    intro n h1 h2
    obtain ⟨cfg1, hm1, hs1⟩ := (mem_stageJobNames config.jobs a n).mp h1
    obtain ⟨cfg2, hm2, hs2⟩ := (mem_stageJobNames config.jobs b n).mp h2
    have hl1 := lookupJob_eq_some config.jobs n cfg1 hk hm1
    have hl2 := lookupJob_eq_some config.jobs n cfg2 hk hm2
    rw [hl1] at hl2
    have hcfg : cfg1 = cfg2 := by simpa using hl2
    exact hab (hs1.symm.trans (hcfg ▸ hs2))

theorem executePipeline_jobs (d : DockerOracle) (config : PipelineConfig)
    (hk : (config.jobs.map Prod.fst).Nodup) (hs : config.stages.Nodup) (n : String) :
    (executePipeline d config).2.jobs n
      = if n ∈ processedJobs d config then some (recordOf d n)
        else precreatedJobs config n := by
  rw [executePipeline_eq_runSeq]
  exact runSeq_jobs d (execOrder config) (initState config)
    (execOrder_nodup config hk hs) rfl n

theorem executePipeline_success (d : DockerOracle) (config : PipelineConfig) :
    (executePipeline d config).1 = (processedJobs d config).all (jobOk d) := by
  rw [executePipeline_eq_runSeq]
  simp only []
  rw [runSeq_success d (execOrder config) (initState config) rfl]
  simp [initState, processedJobs]

theorem executePipeline_created (d : DockerOracle) (config : PipelineConfig) (n : String)
    (h : n ∈ (executePipeline d config).2.created) : n ∈ execOrder config := by
  rw [executePipeline_eq_runSeq] at h
  rcases runSeq_created_mem d (execOrder config) (initState config) n h with h1 | h1
  · simp [initState] at h1
  · exact h1

/-! Lemmas about the log collection loop. -/

theorem collectLoop_flatten (jobID : Int) (hj : jobID > 0)
    (lines : List (List Char)) (batch : List (List Char)) :
    (collectLoop true jobID lines batch).flatten
      = batch ++ (lines.map sanitizeLine).filter (fun l => l ≠ []) := by
  induction lines generalizing batch with
  | nil =>
    by_cases hb : batch = []
    · simp [collectLoop, hb]
    · simp [collectLoop, hb, hj]
  | cons line rest ih =>
    by_cases hcl : sanitizeLine line = []
    · simp [collectLoop, hcl, ih]
    · by_cases h9 : 9 ≤ batch.length
      · simp [collectLoop, hcl, h9, hj, ih]
      · simp [collectLoop, hcl, h9, hj, ih]

theorem collectLoop_shape (jobID : Int) (hj : jobID > 0) (lines : List (List Char))
    (batch : List (List Char)) (hb : batch.length ≤ 9) :
    (∀ b ∈ collectLoop true jobID lines batch, b ≠ [] ∧ b.length ≤ 10)
      ∧ (∀ b ∈ (collectLoop true jobID lines batch).dropLast, b.length = 10) := by
  induction lines generalizing batch with
  | nil =>
    by_cases hbe : batch = []
    · simp [collectLoop, hbe]
    · have hstep : collectLoop true jobID [] batch = [batch] := by
        simp [collectLoop, hbe, hj]
      constructor
      · intro b hb2
        rw [hstep] at hb2
        have hbb : b = batch := by simpa using hb2
        exact ⟨hbb ▸ hbe, by rw [hbb]; omega⟩
      · intro b hb2
        simp [hstep] at hb2
  | cons line rest ih =>
    by_cases hcl : sanitizeLine line = []
    · simpa [collectLoop, hcl] using ih batch hb
    · by_cases h9 : 9 ≤ batch.length
      · have hexact : (batch ++ [sanitizeLine line]).length = 10 := by
          simp only [List.length_append, List.length_cons, List.length_nil]
          omega
        have hstep : collectLoop true jobID (line :: rest) batch
            = (batch ++ [sanitizeLine line]) :: collectLoop true jobID rest [] := by
          simp [collectLoop, hcl, h9, hj]
        obtain ⟨ih1, ih2⟩ := ih [] (by simp)
        rw [hstep]
        constructor
        · intro b hb2
          rcases List.mem_cons.mp hb2 with h1 | h1
          · refine ⟨?_, by rw [h1, hexact]⟩
            rw [h1]
            intro hcontra
            rw [hcontra] at hexact
            simp at hexact
          · exact ih1 b h1
        · intro b hb2
          cases hrec : collectLoop true jobID rest [] with
          | nil => rw [hrec] at hb2; simp at hb2
          | cons c cs =>
            rw [hrec] at hb2
            rw [List.dropLast_cons₂] at hb2
            rcases List.mem_cons.mp hb2 with h1 | h1
            · rw [h1]; exact hexact
            · exact ih2 b (by rw [hrec]; exact h1)
      · have hstep : collectLoop true jobID (line :: rest) batch
            = collectLoop true jobID rest (batch ++ [sanitizeLine line]) := by
          simp [collectLoop, hcl, h9]
        have hlen2 : (batch ++ [sanitizeLine line]).length ≤ 9 := by
          simp only [List.length_append, List.length_cons, List.length_nil]
          omega
        rw [hstep]
        exact ih (batch ++ [sanitizeLine line]) hlen2

/-! The claim theorems. -/

/-- C1, counterexample: with two jobs a and b in one stage where the
image pull of a fails, the run marks a failed with exit code 1 but does
not abort: job b is still attempted (a container is created for it and
it finishes with status success), contradicting the claim that no job
after a pull failure is attempted. -/
theorem c1_pull_failure_does_not_abort_cex :
    (executePipeline dockerPullFailA cfgTwoJobs).2.jobs "a" = some ⟨"failed", some 1⟩
      ∧ (executePipeline dockerPullFailA cfgTwoJobs).2.jobs "b" = some ⟨"success", some 0⟩
      ∧ "b" ∈ (executePipeline dockerPullFailA cfgTwoJobs).2.created := by
  decide

/-- C1, amended: when pullImage fails for a job that the run reaches,
that job is marked failed with exit code 1 and the pipeline result is
failure, but the pipeline is not aborted: the job that follows it in
the visit order is still attempted. -/
theorem c1_pull_failure_marks_failed_and_continues
    (config : PipelineConfig) (d : DockerOracle)
    (hk : (config.jobs.map Prod.fst).Nodup) (hs : config.stages.Nodup)
    (j : String) (hmem : j ∈ processedJobs d config) (hpull : d.pullOk j = false) :
    (executePipeline d config).2.jobs j = some ⟨"failed", some 1⟩
      ∧ (executePipeline d config).1 = false
      ∧ ∀ pre k rest, execOrder config = pre ++ j :: k :: rest →
          k ∈ processedJobs d config := by
  refine ⟨?_, ?_, ?_⟩
  · rw [executePipeline_jobs d config hk hs j, if_pos hmem]
    simp [recordOf, hpull]
  · rw [executePipeline_success]
    apply Bool.eq_false_iff.mpr
    intro hall
    have hj := List.all_eq_true.mp hall j hmem
    simp [jobOk, hpull] at hj
  · intro pre k rest he
    have hhard : hardFail d j = false := by simp [hardFail, hpull]
    exact takeThrough_next (hardFail d) (execOrder config) j
      (execOrder_nodup config hk hs) hmem hhard pre k rest he

/-- C1, witness for the amended theorem at the concrete two-job run. -/
theorem c1_pull_failure_marks_failed_and_continues_witness :
    (executePipeline dockerPullFailA cfgTwoJobs).2.jobs "a" = some ⟨"failed", some 1⟩
      ∧ (executePipeline dockerPullFailA cfgTwoJobs).1 = false
      ∧ "b" ∈ processedJobs dockerPullFailA cfgTwoJobs := by
  have h := c1_pull_failure_marks_failed_and_continues cfgTwoJobs dockerPullFailA
    (by decide) (by decide) "a" (by decide) (by decide)
  exact ⟨h.1, h.2.1, h.2.2 [] "b" [] (by decide)⟩

/-- C2: at a run where all jobs succeed, the deployment fails, and the
pipeline-level rollback clone and redeploy both succeed, the embedded
runner writes the deployment statuses deploying, rolled_back, failed
in that order: the finalization block overwrites the rolled_back
outcome with failed, so the final persisted status is failed, not
rolled_back as the claim (and the intent of the code comment, which
speaks of marking a pending deployment) requires. -/
theorem c2_rolled_back_overwritten_to_failed :
    (runPipelineLogic oracleRollbackOk paramsMain).map (fun r => r.deployWrites)
        = some ["deploying", "rolled_back", "failed"]
      ∧ (runPipelineLogic oracleRollbackOk paramsMain).map (fun r => r.pipelineWrites)
        = some ["failed"] := by
  decide

/-- C3, counterexample: a config declaring only stage build with a job
good in it and a job ghost in the undeclared stage deploy runs to
final pipeline status success (not failed), and no container is created
for ghost, contradicting the claim that the pipeline fails with a log
line naming the offending job. -/
theorem c3_unknown_stage_pipeline_succeeds_cex :
    (runPipelineLogic oracleGhost paramsMain).map (fun r => r.pipelineWrites)
        = some ["success"]
      ∧ (runPipelineLogic oracleGhost paramsMain).map (fun r => r.created) = some ["good"]
      ∧ lookupJob cfgGhost.jobs "ghost" = some ⟨"deploy", "alpine", ["true"]⟩
      ∧ ¬ ("deploy" ∈ cfgGhost.stages) := by
  decide

/-- C3, amended: a job whose stage is not listed in stages is silently
skipped: it never appears in the visit order, no job row is created for
it, no container is created for it, and the pipeline outcome is
computed from the remaining jobs only. -/
theorem c3_unknown_stage_silently_skipped
    (config : PipelineConfig) (d : DockerOracle)
    (hk : (config.jobs.map Prod.fst).Nodup) (hs : config.stages.Nodup)
    (g : String) (cfg : JobConfig)
    (hmem : (g, cfg) ∈ config.jobs) (hstg : cfg.stage ∉ config.stages) :
    g ∉ execOrder config
      ∧ (executePipeline d config).2.jobs g = none
      ∧ g ∉ (executePipeline d config).2.created := by
  have hnotord : g ∉ execOrder config := by
    intro h
    obtain ⟨cfg2, hmem2, hstg2⟩ := (mem_execOrder config g).mp h
    have h1 := lookupJob_eq_some config.jobs g cfg hk hmem
    have h2 := lookupJob_eq_some config.jobs g cfg2 hk hmem2
    rw [h1] at h2
    have hcfg : cfg = cfg2 := by simpa using h2
    rw [hcfg] at hstg
    exact hstg hstg2
  refine ⟨hnotord, ?_, ?_⟩
  · rw [executePipeline_jobs d config hk hs g]
    have hnp : g ∉ processedJobs d config := fun hmem2 =>
      hnotord (takeThrough_sublist (hardFail d) (execOrder config) g hmem2)
    rw [if_neg hnp]
    have hl := lookupJob_eq_some config.jobs g cfg hk hmem
    simp only [precreatedJobs, hl]
    rw [if_neg]
    intro hcont
    exact hstg (by simpa [List.contains_iff_exists_mem_beq] using hcont)
  · intro h
    exact hnotord (executePipeline_created d config g h)

/-- C3, witness for the amended theorem at the concrete ghost run. -/
theorem c3_unknown_stage_silently_skipped_witness :
    "ghost" ∉ execOrder cfgGhost
      ∧ (executePipeline dockerAllOk cfgGhost).2.jobs "ghost" = none
      ∧ "ghost" ∉ (executePipeline dockerAllOk cfgGhost).2.created :=
  c3_unknown_stage_silently_skipped cfgGhost dockerAllOk (by decide) (by decide)
    "ghost" ⟨"deploy", "alpine", ["true"]⟩ (by decide) (by decide)

/-- C4, counterexample: a compose up failure whose output contains the
substring already in use by container with a quoted id, but not the
word Conflict, triggers no force-removal and no retry: the engine rolls
back and returns an error on that first failure, contradicting the
claim that any output containing the substring leads to removal and a
retry. -/
theorem c4_substring_without_marker_no_retry_cex :
    goContains upOutputNoMarker "already in use by container \"" = true
      ∧ deployCompose composeOracleNoMarker
        = ⟨true, true, none, false⟩ := by
  decide

/-- C4, amended: the conflict resolution fires only when the up output
contains both the word Conflict and the phrase already in use by
container; then the quoted container id is force-removed and compose up
is retried exactly once; when the retry also fails the engine rolls
back and returns an error, and when it succeeds the run proceeds to the
health check. -/
theorem c4_conflict_retry_requires_marker (o : ComposeOracle) (cid : String)
    (hpull : o.pullOk = true) (hup : o.upOk = false)
    (hc1 : goContains o.upOutput "Conflict" = true)
    (hc2 : goContains o.upOutput "already in use by container" = true)
    (hid : extractConflictID o.upOutput = some cid) :
    (deployCompose o).removedConflict = some cid
      ∧ (deployCompose o).retried = true
      ∧ (o.retryOk = false → deployCompose o = ⟨true, true, some cid, true⟩)
      ∧ (o.retryOk = true → deployCompose o = afterUpSuccess o (some cid) true) := by
  have hstep : deployCompose o
      = if o.retryOk then afterUpSuccess o (some cid) true
        else ⟨true, true, some cid, true⟩ := by
    simp [deployCompose, hpull, hup, hc1, hc2, hid]
  have hfields : ∀ r t, (afterUpSuccess o r t).removedConflict = r
      ∧ (afterUpSuccess o r t).retried = t := by
    intro r t
    simp only [afterUpSuccess]
    by_cases h1 : o.servicesCmdOk = false <;>
      by_cases h2 : o.expectedServicesEmpty = true <;>
        by_cases h3 : o.healthOk = true <;>
          simp [h1, h2, h3]
  refine ⟨?_, ?_, ?_, ?_⟩
  · rw [hstep]
    by_cases hr : o.retryOk = true
    · simp [hr, (hfields (some cid) true).1]
    · simp only [Bool.not_eq_true] at hr
      simp [hr]
  · rw [hstep]
    by_cases hr : o.retryOk = true
    · simp [hr, (hfields (some cid) true).2]
    · simp only [Bool.not_eq_true] at hr
      simp [hr]
  · intro hr
    rw [hstep, hr]
    simp
  · intro hr
    rw [hstep, hr]
    simp

/-- C4, witness for the amended theorem at the daemon-style conflict
message with a successful retry. -/
theorem c4_conflict_retry_requires_marker_witness :
    (deployCompose composeOracleDaemon).removedConflict = some "deadbeef"
      ∧ (deployCompose composeOracleDaemon).retried = true :=
  let h := c4_conflict_retry_requires_marker composeOracleDaemon "deadbeef"
    (by decide) (by decide) (by decide) (by decide) (by decide)
  ⟨h.1, h.2.1⟩

/-- C5: when a job that the run reaches has its container exit with a
non-zero code, that job is marked failed with exactly that exit code
and every job after it in the visit order (rest of its stage and all
later stages) stays pending in the final state. -/
theorem c5_fail_fast_no_later_job_leaves_pending
    (config : PipelineConfig) (d : DockerOracle)
    (hk : (config.jobs.map Prod.fst).Nodup) (hs : config.stages.Nodup)
    (jn : String) (hmem : jn ∈ processedJobs d config) (hhard : hardFail d jn = true) :
    (executePipeline d config).2.jobs jn = some ⟨"failed", some (d.exitCode jn)⟩
      ∧ ∀ pre rest, execOrder config = pre ++ jn :: rest →
          ∀ k, k ∈ rest → (executePipeline d config).2.jobs k = some pendingRecord := by
  have hnd : (execOrder config).Nodup := execOrder_nodup config hk hs
  have hfacts : (d.pullOk jn = true ∧ d.startOk jn = true) ∧ ¬ d.exitCode jn = 0 := by
    simpa [hardFail] using hhard
  constructor
  · rw [executePipeline_jobs d config hk hs jn, if_pos hmem]
    simp [recordOf, hfacts.1.1, hfacts.1.2, hfacts.2]
  · intro pre rest he k hkmem
    obtain ⟨pre0, rest0, he0, ht0, hall0⟩ :=
      takeThrough_decomp (hardFail d) (execOrder config) jn hmem hhard
    have hinj := nodup_middle_inj jn pre rest pre0 rest0 (he ▸ hnd) (he ▸ he0)
    have hkrest0 : k ∈ rest0 := hinj.2 ▸ hkmem
    have hnd0 : (pre0 ++ jn :: rest0).Nodup := he0 ▸ hnd
    have hsplit := List.nodup_append.mp hnd0
    have hkord : k ∈ execOrder config := by
      rw [he0]
      exact List.mem_append_right pre0 (List.mem_cons_of_mem jn hkrest0)
    have hknp : k ∉ processedJobs d config := by
      intro hkp
      rw [processedJobs, ht0] at hkp
      rcases List.mem_append.mp hkp with h1 | h1
      · exact hsplit.2.2 h1 (List.mem_cons_of_mem jn hkrest0)
      · have hkjn : k = jn := by simpa using h1
        have hjn : jn ∉ rest0 := (List.nodup_cons.mp hsplit.2.1).1
        rw [hkjn] at hkrest0
        exact hjn hkrest0
    rw [executePipeline_jobs d config hk hs k, if_neg hknp]
    exact precreated_of_mem_execOrder config hk k hkord

/-- C5, witness at the two-stage run whose first job exits with code
3: the first job ends failed with exit code 3 and the second stays
pending. -/
theorem c5_fail_fast_witness :
    (executePipeline dockerExitThreeA cfgTwoStages).2.jobs "a" = some ⟨"failed", some 3⟩
      ∧ (executePipeline dockerExitThreeA cfgTwoStages).2.jobs "t" = some pendingRecord := by
  have h := c5_fail_fast_no_later_job_leaves_pending cfgTwoStages dockerExitThreeA
    (by decide) (by decide) "a" (by decide) (by decide)
  exact ⟨h.1.trans (by decide), h.2 [] ["t"] (by decide) "t" (by decide)⟩

/-- C6, counterexample: an unset pipeline filename resolves to
.gitlab-ci.yml, not to pipeline.yml as the claim states. -/
theorem c6_default_pipeline_filename_cex :
    effectivePipelineFilename "" = ".gitlab-ci.yml"
      ∧ ".gitlab-ci.yml" ≠ "pipeline.yml" := by
  decide

/-- C6, amended: an unset (empty) pipeline filename defaults to
.gitlab-ci.yml and an unset deployment filename defaults to
docker-compose.yml, in both the webhook and the manual trigger
entry points, which share this resolution. -/
theorem c6_default_filenames :
    effectivePipelineFilename "" = ".gitlab-ci.yml"
      ∧ effectiveDeploymentFilename "" = "docker-compose.yml" := by
  decide

/-- C7: the override generated for a duplicate-free service list has
exactly the input services as its keys, each image field follows the
formula registryUser slash cleanProject dash cleanService colon tag
with the lower-cased space-to-dash cleaning, and every service entering
the override through ParseServices declares a build key, so services
without one never appear. -/
theorem c7_generate_override_roundtrip (services : List String) (u p t : String)
    (hnd : services.Nodup) :
    (GenerateOverride services u p t).map Prod.fst = services
      ∧ ((GenerateOverride services u p t).map Prod.fst).Nodup
      ∧ (∀ s img, (s, img) ∈ GenerateOverride services u p t →
          img = u ++ "/" ++ cleanName p ++ "-" ++ cleanName s ++ ":" ++ t)
      ∧ (∀ doc : ComposeDoc, ∀ n, n ∈ ParseServices doc →
          ∃ svc, (n, svc) ∈ doc.services ∧ svc.hasBuild = true) := by
  have hfst : (GenerateOverride services u p t).map Prod.fst = services := by
    simp only [GenerateOverride, List.map_map]
    have hcomp : (Prod.fst ∘ fun service : String =>
        (service, u ++ "/" ++ cleanName p ++ "-" ++ cleanName service ++ ":" ++ t))
          = fun service => service := rfl
    rw [hcomp]
    exact List.map_id' services
  refine ⟨hfst, by rw [hfst]; exact hnd, ?_, ?_⟩
  · intro s img hmem
    simp only [GenerateOverride, List.mem_map] at hmem
    obtain ⟨s0, _, heq⟩ := hmem
    have hs0 : s0 = s := (Prod.ext_iff.mp heq).1
    have himg := (Prod.ext_iff.mp heq).2
    rw [hs0] at himg
    exact himg.symm
  · intro doc n hmem
    simp only [ParseServices, List.mem_map, List.mem_filter] at hmem
    obtain ⟨⟨m, svc⟩, ⟨hmem2, hbuild⟩, hfst2⟩ := hmem
    simp only at hfst2
    subst hfst2
    exact ⟨svc, hmem2, by simpa using hbuild⟩

/-- C7, witness at a concrete service list and names containing spaces
and upper case. -/
theorem c7_generate_override_roundtrip_witness :
    (GenerateOverride ["web", "api"] "acme" "My App" "abc12345").map Prod.fst
      = ["web", "api"] :=
  (c7_generate_override_roundtrip ["web", "api"] "acme" "My App" "abc12345" (by decide)).1

/-- C8: with a store and a job row, the batches flushed by the log
collection loop concatenate, in read order, to exactly the sanitized
non-empty lines; no persisted line contains a NUL character; every
flushed batch is non-empty with at most 10 lines, and every batch
before the final remainder has exactly 10 lines. -/
theorem c8_collect_logs_sanitized_batched (jobID : Int) (lines : List (List Char))
    (hj : jobID > 0) :
    (collectLogs true jobID lines).flatten
        = (lines.map sanitizeLine).filter (fun l => l ≠ [])
      ∧ (∀ b ∈ collectLogs true jobID lines, ∀ l ∈ b, nulChar ∉ l)
      ∧ (∀ b ∈ collectLogs true jobID lines, b ≠ [] ∧ b.length ≤ 10)
      ∧ (∀ b ∈ (collectLogs true jobID lines).dropLast, b.length = 10) := by
  have hflat := collectLoop_flatten jobID hj lines []
  have hshape := collectLoop_shape jobID hj lines [] (by simp)
  refine ⟨by simpa [collectLogs] using hflat, ?_, hshape.1, hshape.2⟩
  intro b hbmem l hlmem hnul
  have hlflat : l ∈ (collectLogs true jobID lines).flatten :=
    List.mem_flatten.mpr ⟨b, hbmem, hlmem⟩
  rw [collectLogs, hflat] at hlflat
  simp only [List.nil_append, List.mem_filter, List.mem_map] at hlflat
  obtain ⟨⟨line, _, hline⟩, _⟩ := hlflat
  rw [← hline] at hnul
  simp only [sanitizeLine, List.mem_filter] at hnul
  simp at hnul

/-- C8, witness at a two-line stream containing NUL bytes: the line a
NUL b is persisted as ab and the all-NUL line is dropped. -/
theorem c8_collect_logs_sanitized_batched_witness :
    (collectLogs true 1 [['a', nulChar, 'b'], [nulChar]]).flatten = [['a', 'b']] := by
  have h := c8_collect_logs_sanitized_batched 1 [['a', nulChar, 'b'], [nulChar]] (by decide)
  exact h.1.trans (by decide)

/-- C9: the remote (registry build-push plus SSH) deployment flow is
selected exactly when the project is known and both its RegistryUser
and its SSHHost are non-empty; in every other case selectFlow yields
the local flow. -/
theorem c9_deploy_flow_selection (project : Option Project) :
    (selectFlow project = DeployFlow.remote
        ↔ ∃ p, project = some p ∧ p.registryUser ≠ "" ∧ p.sshHost ≠ "")
      ∧ (selectFlow project = DeployFlow.remote ∨ selectFlow project = DeployFlow.local) := by
  constructor
  · constructor
    · intro hsel
      cases project with
      | none => simp [selectFlow] at hsel
      | some p =>
        refine ⟨p, rfl, ?_⟩
        by_cases h : p.registryUser ≠ "" ∧ p.sshHost ≠ ""
        · exact h
        · rw [selectFlow, if_neg h] at hsel
          exact absurd hsel (by simp)
    · intro ⟨q, hq, hq2⟩
      subst hq
      simp [selectFlow, hq2.1, hq2.2]
  · cases project with
    | none => simp [selectFlow]
    | some p =>
      by_cases h : p.registryUser ≠ "" ∧ p.sshHost ≠ ""
      · simp [selectFlow, h]
      · simp [selectFlow, h]

/-- The rollback attempt cannot hit the short-hash slice when every
stored last-successful commit hash in use is at least 8 characters. -/
theorem rollbackAttempt_isSome (o : RunnerOracle)
    (hrb : ∀ c, o.lastSuccessfulCommit = some c → c ≠ "" → 8 ≤ c.length) :
    (rollbackAttempt o).isSome = true := by
  rw [rollbackAttempt]
  by_cases hdb : o.hasDB ∧ o.project.isSome
  · rw [if_pos hdb]
    cases hc : o.lastSuccessfulCommit with
    | none => rfl
    | some c =>
      by_cases hne : c ≠ ""
      · have hlen := hrb c hc hne
        simp [hne, show ¬ c.length < 8 by omega]
      · simp [hne]
  · rw [if_neg hdb]
    rfl

/-- C10: the runner slices the first 8 characters of the commit hash
for the workspace path with no length guard, and again for the
rollback workspace: any run whose commit hash is shorter than 8
characters panics (none), and the run completes without this panic
whenever the triggering hash and every used last-successful hash have
at least 8 characters; the spec precondition, a non-empty hash, is
strictly weaker, as the 3-character hash abc shows. -/
theorem c10_commit_slice_guard (o : RunnerOracle) (params : RunParams) :
    (params.commitHash.length < 8 → runPipelineLogic o params = none)
      ∧ (8 ≤ params.commitHash.length →
          (∀ c, o.lastSuccessfulCommit = some c → c ≠ "" → 8 ≤ c.length) →
          (runPipelineLogic o params).isSome = true)
      ∧ ((runPipelineLogic oracleGhost paramsShort).isSome = false
          ∧ paramsShort.commitHash ≠ "") := by
  refine ⟨?_, ?_, by decide⟩
  · intro h
    simp [runPipelineLogic, h]
  · intro h8 hrb
    have hne : ¬ params.commitHash.length < 8 := by omega
    rw [runPipelineLogic]
    rw [if_neg hne]
    by_cases hclone : o.cloneOk = false
    · simp [hclone]
    · rw [if_neg hclone]
      by_cases hcfg : o.configFileFound = false
      · simp [hcfg]
      · rw [if_neg hcfg]
        cases hparse : o.parseResult with
        | none => rfl
        | some config =>
          simp only []
          by_cases hrun : (executePipeline o.docker config).1 = true
          · simp only [hrun, if_pos rfl]
            by_cases hdep : o.deployOk = true
            · simp [hdep]
            · simp only [Bool.not_eq_true] at hdep
              simp only [hdep, Bool.false_eq_true, if_false]
              have hsome := rollbackAttempt_isSome o hrb
              cases hres : rollbackAttempt o with
              | none => rw [hres] at hsome; simp at hsome
              | some rb => rfl
          · simp only [Bool.not_eq_true] at hrun
            simp [hrun]

/-- C10, witness: the 3-character hash abc panics while the
8-character hash completes, over the concrete ghost oracle. -/
theorem c10_commit_slice_guard_witness :
    runPipelineLogic oracleGhost paramsShort = none
      ∧ (runPipelineLogic oracleGhost paramsMain).isSome = true :=
  ⟨(c10_commit_slice_guard oracleGhost paramsShort).1 (by decide),
   (c10_commit_slice_guard oracleGhost paramsMain).2.1 (by decide)
     (fun c hc _ => absurd hc (by simp [oracleGhost]))⟩

end CICD
